import Mathlib

/-!
Shallow embedding of patelmup1/portfolio-site.

Part 1: the service worker `src/sw.js`.  Cache storage is modelled as an
ordered association list of named buckets (browser caches are enumerated in
creation order); a bucket is an ordered association list from request
locator (exact URL) to stored response.  The network is a partial function
from locators to responses (`none` = failed fetch).

Part 2: the simulated market feed of the dashboard component
(`generateNextPoint`, the init effect and the interval effect).  Values are
rationals, `Math.random()` draws are explicit parameters in `[0, 1)`.
-/

namespace PortfolioSite

abbrev Locator := String
abbrev Resp := String
abbrev Bucket := List (Locator × Resp)
abbrev CacheStorage := List (String × Bucket)
abbrev Network := Locator → Option Resp

/-- Source: `const CACHE_NAME = 'meet-patel-portfolio-v1';` -/
def CACHE_NAME : String := "meet-patel-portfolio-v1"

/-- Source: `const ASSETS_TO_CACHE = [...]` in `src/sw.js`. -/
def ASSETS_TO_CACHE : List Locator :=
  [ "/",
    "/index.html",
    "/projects.html",
    "/about.html",
    "/skills.html",
    "/contact.html",
    "/blog.html",
    "/404.html",
    "/privacy.html",
    "/offline.html",
    "/favicon.jpg",
    "/manifest.json",
    "https://cdn.tailwindcss.com",
    "https://fonts.googleapis.com/css2?family=Manrope:wght@300;400;600&family=Oswald:wght@400;500;700&display=swap" ]

/-- Exact-URL lookup in one bucket (`cache.match`): first entry whose key
equals the locator. -/
def bucketLookup : Bucket → Locator → Option Resp
  | [], _ => none
  | p :: t, loc => if p.1 = loc then some p.2 else bucketLookup t loc

/-- Batch cache operation helper: remove every entry stored under key `k`
(the Cache API `put` deletes all matching entries before appending). -/
def eraseKey : Bucket → Locator → Bucket
  | [], _ => []
  | p :: t, k => if p.1 = k then eraseKey t k else p :: eraseKey t k

/-- `cache.put(request, response)`: delete matching entries, append the new
pair at the end. -/
def cachePut (b : Bucket) (k : Locator) (v : Resp) : Bucket :=
  eraseKey b k ++ [(k, v)]

/-- Store a list of fetched pairs one after the other (the batch put of
`cache.addAll`). -/
def putAll (b : Bucket) (l : List (Locator × Resp)) : Bucket :=
  l.foldl (fun acc p => cachePut acc p.1 p.2) b

/-- Fetch every locator; fail as a whole if any single fetch fails
(`cache.addAll` rejects when any request fails, and the batch is atomic:
nothing is stored on failure). -/
def fetchAll (net : Network) : List Locator → Option (List Resp)
  | [] => some []
  | a :: t =>
    match net a with
    | none => none
    | some r =>
      match fetchAll net t with
      | none => none
      | some rs => some (r :: rs)

/-- First bucket stored under `name` (browser cache names are unique). -/
def getBucket : CacheStorage → String → Option Bucket
  | [], _ => none
  | p :: t, name => if p.1 = name then some p.2 else getBucket t name

/-- `caches.open(name)`: return the storage, creating an empty bucket named
`name` at the end when none exists. -/
def cachesOpen (cs : CacheStorage) (name : String) : CacheStorage :=
  if (getBucket cs name).isSome then cs else cs ++ [(name, [])]

/-- Replace the contents of the bucket named `name`. -/
def setBucket (cs : CacheStorage) (name : String) (b : Bucket) : CacheStorage :=
  cs.map (fun p => if p.1 = name then (name, b) else p)

/-- `caches.delete(name)`: remove the bucket stored under `name`. -/
def cachesDelete : CacheStorage → String → CacheStorage
  | [], _ => []
  | p :: t, n => if p.1 = n then cachesDelete t n else p :: cachesDelete t n

/-- The install handler of `src/sw.js`: open (or create) the bucket named
`CACHE_NAME`, then `cache.addAll(ASSETS_TO_CACHE)`.  Returns whether the
extended lifetime promise resolved (`true`) or rejected (`false`), and the
resulting cache storage. -/
def installHandler (net : Network) (cs : CacheStorage) : Bool × CacheStorage :=
  let cs1 := cachesOpen cs CACHE_NAME
  let b := (getBucket cs1 CACHE_NAME).getD []
  match fetchAll net ASSETS_TO_CACHE with
  | none => (false, cs1)
  | some rs => (true, setBucket cs1 CACHE_NAME (putAll b (ASSETS_TO_CACHE.zip rs)))

/-- The activate handler of `src/sw.js`: read `caches.keys()`, and delete
every cache whose name differs from `CACHE_NAME`. -/
def activateHandler (cs : CacheStorage) : CacheStorage :=
  (cs.map Prod.fst).foldl
    (fun acc n => if n = CACHE_NAME then acc else cachesDelete acc n) cs

/-- `caches.match(request)`: search every bucket in creation order, return
the first exact-locator hit. -/
def cachesMatch : CacheStorage → Locator → Option Resp
  | [], _ => none
  | p :: t, loc =>
    match bucketLookup p.2 loc with
    | some r => some r
    | none => cachesMatch t loc

/-- The fetch handler of `src/sw.js`: `caches.match(event.request)`; on a
hit return the stored response, on a miss `fetch(event.request)`.  Result:
the response delivered, the cache storage afterwards, and whether the
network was consulted. -/
def fetchHandler (net : Network) (cs : CacheStorage) (loc : Locator) :
    Option Resp × CacheStorage × Bool :=
  match cachesMatch cs loc with
  | some r => (some r, cs, false)
  | none => (net loc, cs, true)

/-- Host lifecycle around a deployment: run install; only a successful
install is followed by activation (a rejected `waitUntil` promise keeps the
previous worker, so activate never runs). -/
def upgrade (net : Network) (cs : CacheStorage) : Bool × CacheStorage :=
  match installHandler net cs with
  | (true, cs1) => (true, activateHandler cs1)
  | (false, cs1) => (false, cs1)

/-! Part 2: the simulated market feed. -/

/-- One point of the chart series: a timestamp (milliseconds) and a value. -/
structure ChartPoint where
  time : Int
  value : ℚ
deriving DecidableEq

/-- Source: `const generateNextPoint = (prevPrice) => { const change =
(Math.random() - 0.5) * 5; return Math.max(0, prevPrice + change); }`,
with the `Math.random()` draw `r` made explicit. -/
def generateNextPoint (prevPrice r : ℚ) : ℚ :=
  max 0 (prevPrice + (r - 1/2) * 5)

/-- The init effect: `Array.from({ length: 50 }, (_, i) => ({ time: new
Date(now - (50 - i) * 1000), value: 100 + Math.random() * 20 }))`, the
`i`-th random draw made explicit as `rand i`. -/
def initChartData (now : Int) (rand : Nat → ℚ) : List ChartPoint :=
  (List.range 50).map (fun (i : Nat) => ⟨now - (50 - (i : Int)) * 1000, 100 + rand i * 20⟩)

/-- One tick of the chart updater: read `prev[prev.length - 1].value`
(undefined on an empty series, modelled as `none`), generate the next
point, and return `[...prev.slice(1), { time: newTime, value: newValue }]`. -/
def tickChart (prev : List ChartPoint) (r : ℚ) (t : Int) :
    Option (List ChartPoint) :=
  match prev.getLast? with
  | none => none
  | some last => some (prev.tail ++ [⟨t, generateNextPoint last.value r⟩])

/-- Source: `setPortfolioValue(pv => pv + (newValue - lastValue) * 100)`. -/
def tickPortfolio (pv lastValue newValue : ℚ) : ℚ :=
  pv + (newValue - lastValue) * 100

/-- One tick of the pair (last chart value, portfolio value), as performed
by the interval effect. -/
def tickState (s : ℚ × ℚ) (r : ℚ) : ℚ × ℚ :=
  let newV := generateNextPoint s.1 r
  (newV, tickPortfolio s.2 s.1 newV)

/-- Iterate ticks over a list of random draws. -/
def runTicks (s : ℚ × ℚ) (rs : List ℚ) : ℚ × ℚ :=
  rs.foldl tickState s

/-- Source: `const [portfolioValue, setPortfolioValue] = useState(124500.00)`. -/
def INITIAL_PORTFOLIO_VALUE : ℚ := 124500

/-! Helper definitions. -/

/-- Keys of a bucket-style association list. -/
def keys (l : List (Locator × Resp)) : List Locator :=
  l.map Prod.fst

/-- Remove every entry whose key belongs to `ks`. -/
def eraseKeys : Bucket → List Locator → Bucket
  | [], _ => []
  | p :: t, ks => if p.1 ∈ ks then eraseKeys t ks else p :: eraseKeys t ks

/-- The foldl at the heart of the activate handler. -/
def activateStep (acc : CacheStorage) (n : String) : CacheStorage :=
  if n = CACHE_NAME then acc else cachesDelete acc n

/-- A network on which every fetch succeeds (used to instantiate theorems
at concrete inputs). -/
def netOK : Network := fun l => some (String.append "R:" l)

/-- A network on which every fetch fails. -/
def netFail : Network := fun _ => none

/-! Lemmas about buckets. -/

theorem eraseKeys_nil (b : Bucket) : eraseKeys b [] = b := by
  induction b with
  | nil => rfl
  | cons p t ih => simp [eraseKeys, ih]

theorem eraseKeys_append (x y : Bucket) (ks : List Locator) :
    eraseKeys (x ++ y) ks = eraseKeys x ks ++ eraseKeys y ks := by
  induction x with
  | nil => rfl
  | cons p t ih =>
    by_cases h : p.1 ∈ ks <;> simp [eraseKeys, h, ih]

theorem eraseKeys_eraseKey (b : Bucket) (k : Locator) (ks : List Locator) :
    eraseKeys (eraseKey b k) ks = eraseKeys b (k :: ks) := by
  induction b with
  | nil => rfl
  | cons p t ih =>
    by_cases hk : p.1 = k
    · simp [eraseKey, eraseKeys, hk, ih]
    · by_cases hm : p.1 ∈ ks <;> simp [eraseKey, eraseKeys, hk, hm, ih]

theorem eraseKeys_idem (b : Bucket) (ks : List Locator) :
    eraseKeys (eraseKeys b ks) ks = eraseKeys b ks := by
  induction b with
  | nil => rfl
  | cons p t ih =>
    by_cases h : p.1 ∈ ks <;> simp [eraseKeys, h, ih]

theorem eraseKeys_of_forall_mem (l : Bucket) (ks : List Locator)
    (h : ∀ p ∈ l, p.1 ∈ ks) : eraseKeys l ks = [] := by
  induction l with
  | nil => rfl
  | cons p t ih =>
    have hp : p.1 ∈ ks := h p (List.mem_cons_self p t)
    simp only [eraseKeys, if_pos hp]
    exact ih (fun q hq => h q (List.mem_cons_of_mem p hq))

theorem putAll_cons (b : Bucket) (k : Locator) (v : Resp)
    (t : List (Locator × Resp)) :
    putAll b ((k, v) :: t) = putAll (cachePut b k v) t := rfl

theorem keys_cons (p : Locator × Resp) (t : List (Locator × Resp)) :
    keys (p :: t) = p.1 :: keys t := rfl

/-- Structural form of batch population: erase all keys of `l`, then append
`l` itself, provided the keys of `l` are distinct. -/
theorem putAll_eq (l : List (Locator × Resp)) (b : Bucket)
    (h : (keys l).Nodup) : putAll b l = eraseKeys b (keys l) ++ l := by
  induction l generalizing b with
  | nil => simp [putAll, eraseKeys_nil, keys]
  | cons p t ih =>
    obtain ⟨k, v⟩ := p
    rw [keys_cons] at h
    have hk : k ∉ keys t := (List.nodup_cons.mp h).1
    have ht : (keys t).Nodup := (List.nodup_cons.mp h).2
    calc putAll b ((k, v) :: t)
        = putAll (cachePut b k v) t := rfl
      _ = eraseKeys (cachePut b k v) (keys t) ++ t := ih _ ht
      _ = eraseKeys b (keys ((k, v) :: t)) ++ ((k, v) :: t) := by
          rw [cachePut, eraseKeys_append, eraseKeys_eraseKey, keys_cons]
          simp [eraseKeys, hk]

/-- Re-running the batch population over its own output changes nothing. -/
theorem putAll_idem (l : List (Locator × Resp)) (b : Bucket)
    (h : (keys l).Nodup) : putAll (putAll b l) l = putAll b l := by
  rw [putAll_eq l b h, putAll_eq l _ h, eraseKeys_append, eraseKeys_idem,
    eraseKeys_of_forall_mem l (keys l) (fun p hp => List.mem_map_of_mem Prod.fst hp)]
  simp

theorem bucketLookup_append_of_none (x y : Bucket) (k : Locator)
    (h : bucketLookup x k = none) :
    bucketLookup (x ++ y) k = bucketLookup y k := by
  induction x with
  | nil => rfl
  | cons p t ih =>
    obtain ⟨k', v⟩ := p
    by_cases hk : k' = k
    · simp [bucketLookup, hk] at h
    · simp only [bucketLookup, if_neg hk] at h ⊢
      exact ih h

theorem bucketLookup_eraseKeys_of_mem (b : Bucket) (ks : List Locator)
    (k : Locator) (h : k ∈ ks) : bucketLookup (eraseKeys b ks) k = none := by
  induction b with
  | nil => rfl
  | cons p t ih =>
    by_cases hm : p.1 ∈ ks
    · simpa [eraseKeys, hm] using ih
    · have hk : p.1 ≠ k := fun he => hm (he ▸ h)
      simpa [eraseKeys, hm, bucketLookup, hk] using ih

theorem bucketLookup_of_mem_nodup (l : Bucket) (k : Locator) (v : Resp)
    (hn : (keys l).Nodup) (hm : (k, v) ∈ l) : bucketLookup l k = some v := by
  induction l with
  | nil => cases hm
  | cons p t ih =>
    obtain ⟨k', v'⟩ := p
    rw [keys_cons] at hn
    rcases List.mem_cons.mp hm with he | ht
    · cases he
      simp [bucketLookup]
    · have hk : k' ≠ k := by
        intro he
        subst he
        exact (List.nodup_cons.mp hn).1 (List.mem_map.mpr ⟨(k', v), ht, rfl⟩)
      simp only [bucketLookup, if_neg hk]
      exact ih (List.nodup_cons.mp hn).2 ht

/-- Lookup after a batch population with distinct keys returns the stored
response. -/
theorem bucketLookup_putAll (l : List (Locator × Resp)) (b : Bucket)
    (k : Locator) (v : Resp) (hn : (keys l).Nodup) (hm : (k, v) ∈ l) :
    bucketLookup (putAll b l) k = some v := by
  rw [putAll_eq l b hn,
    bucketLookup_append_of_none _ _ _
      (bucketLookup_eraseKeys_of_mem b (keys l) k
        (List.mem_map_of_mem Prod.fst hm))]
  exact bucketLookup_of_mem_nodup l k v hn hm

/-! Lemmas about `fetchAll`. -/

theorem fetchAll_length (net : Network) (as : List Locator) (rs : List Resp)
    (h : fetchAll net as = some rs) : rs.length = as.length := by
  induction as generalizing rs with
  | nil =>
    simp only [fetchAll, Option.some.injEq] at h
    simp [← h]
  | cons a t ih =>
    simp only [fetchAll] at h
    cases ha : net a with
    | none => rw [ha] at h; cases h
    | some r =>
      rw [ha] at h
      cases hr : fetchAll net t with
      | none => rw [hr] at h; cases h
      | some rs0 =>
        rw [hr] at h
        cases h
        simp [ih rs0 hr]

theorem fetchAll_mem (net : Network) (as : List Locator) (rs : List Resp)
    (a : Locator) (h : fetchAll net as = some rs) (ha : a ∈ as) :
    ∃ r, net a = some r ∧ (a, r) ∈ as.zip rs := by
  induction as generalizing rs with
  | nil => cases ha
  | cons a0 t ih =>
    simp only [fetchAll] at h
    cases ha0 : net a0 with
    | none => rw [ha0] at h; cases h
    | some r0 =>
      rw [ha0] at h
      cases hr : fetchAll net t with
      | none => rw [hr] at h; cases h
      | some rs0 =>
        rw [hr] at h
        cases h
        rcases List.mem_cons.mp ha with rfl | hat
        · exact ⟨r0, ha0, by simp [List.zip_cons_cons]⟩
        · obtain ⟨r, hnet, hz⟩ := ih rs0 hr hat
          exact ⟨r, hnet, by simp [List.zip_cons_cons, hz]⟩

theorem fetchAll_none_of_mem (net : Network) (as : List Locator) (a : Locator)
    (ha : a ∈ as) (h : net a = none) : fetchAll net as = none := by
  induction as with
  | nil => cases ha
  | cons a0 t ih =>
    rcases List.mem_cons.mp ha with rfl | hat
    · simp [fetchAll, h]
    · simp only [fetchAll]
      cases net a0 with
      | none => rfl
      | some r => rw [ih hat]

/-! Lemmas about cache storage operations. -/

theorem getBucket_append_left (cs d : CacheStorage) (n : String)
    (h : (getBucket cs n).isSome) :
    getBucket (cs ++ d) n = getBucket cs n := by
  induction cs with
  | nil => simp [getBucket] at h
  | cons p t ih =>
    obtain ⟨m, b⟩ := p
    by_cases hm : m = n
    · simp [getBucket, hm]
    · simp only [getBucket, if_neg hm] at h ⊢
      exact ih h

theorem getBucket_cachesOpen_isSome (cs : CacheStorage) (n : String) :
    (getBucket (cachesOpen cs n) n).isSome := by
  unfold cachesOpen
  by_cases h : (getBucket cs n).isSome
  · simp [h]
  · simp only [h, if_false, Bool.false_eq_true]
    induction cs with
    | nil => simp [getBucket]
    | cons p t ih =>
      obtain ⟨m, b⟩ := p
      by_cases hm : m = n
      · simp [getBucket, hm]
      · simp only [getBucket, if_neg hm] at h ⊢
        exact ih h

theorem getBucket_cachesOpen_of_isSome (cs : CacheStorage) (n m : String)
    (h : (getBucket cs m).isSome) :
    getBucket (cachesOpen cs n) m = getBucket cs m := by
  unfold cachesOpen
  by_cases hn : (getBucket cs n).isSome
  · simp [hn]
  · simp only [hn, if_false, Bool.false_eq_true]
    exact getBucket_append_left cs _ m h

theorem getBucket_setBucket_self (cs : CacheStorage) (n : String) (b : Bucket)
    (h : (getBucket cs n).isSome) :
    getBucket (setBucket cs n b) n = some b := by
  induction cs with
  | nil => simp [getBucket] at h
  | cons p t ih =>
    obtain ⟨m, c⟩ := p
    by_cases hm : m = n
    · subst hm
      simp [setBucket, getBucket]
    · simp only [getBucket, if_neg hm] at h
      simpa [setBucket, getBucket, hm] using ih h

theorem setBucket_setBucket (cs : CacheStorage) (n : String) (b c : Bucket) :
    setBucket (setBucket cs n b) n c = setBucket cs n c := by
  induction cs with
  | nil => rfl
  | cons p t ih =>
    obtain ⟨m, d⟩ := p
    by_cases hm : m = n <;> simp [setBucket, hm] at ih ⊢ <;> simpa [setBucket] using ih

theorem mem_setBucket (cs : CacheStorage) (n : String) (b : Bucket)
    (p : String × Bucket) (h : p ∈ setBucket cs n b) :
    (p.1 = n ∧ p.2 = b) ∨ (p ∈ cs ∧ p.1 ≠ n) := by
  induction cs with
  | nil => cases h
  | cons q t ih =>
    obtain ⟨m, d⟩ := q
    simp only [setBucket, List.map_cons] at h
    rcases List.mem_cons.mp h with he | ht
    · by_cases hm : m = n
      · rw [if_pos hm] at he
        subst he
        exact Or.inl ⟨rfl, rfl⟩
      · rw [if_neg hm] at he
        subst he
        exact Or.inr ⟨List.mem_cons_self _ _, hm⟩
    · rcases ih (by simpa [setBucket] using ht) with hl | ⟨hmem, hne⟩
      · exact Or.inl hl
      · exact Or.inr ⟨List.mem_cons_of_mem _ hmem, hne⟩

/-! Lemmas about `cachesMatch`, `cachesDelete` and the activate handler. -/

theorem cachesMatch_append (x y : CacheStorage) (loc : Locator) :
    cachesMatch (x ++ y) loc =
      match cachesMatch x loc with
      | some r => some r
      | none => cachesMatch y loc := by
  induction x with
  | nil => simp [cachesMatch]
  | cons p t ih =>
    simp only [List.cons_append, cachesMatch]
    cases bucketLookup p.2 loc <;> simp [ih]

/-- Membership in the whole cache storage determines whether `caches.match`
finds a response. -/
theorem cachesMatch_eq_none_iff (cs : CacheStorage) (loc : Locator) :
    cachesMatch cs loc = none ↔ ∀ p ∈ cs, bucketLookup p.2 loc = none := by
  induction cs with
  | nil => simp [cachesMatch]
  | cons p t ih =>
    simp only [cachesMatch]
    cases h : bucketLookup p.2 loc with
    | some r =>
      simp only [List.mem_cons]
      constructor
      · intro hc; cases hc
      · intro hall
        have := hall p (Or.inl rfl)
        rw [h] at this; cases this
    | none =>
      simp only [List.mem_cons]
      rw [ih]
      constructor
      · intro hall q hq
        rcases hq with rfl | hq
        · exact h
        · exact hall q hq
      · intro hall q hq
        exact hall q (Or.inr hq)

theorem cachesMatch_of_forall (cs : CacheStorage) (loc : Locator) (r : Resp)
    (hne : cs ≠ []) (hall : ∀ p ∈ cs, bucketLookup p.2 loc = some r) :
    cachesMatch cs loc = some r := by
  cases cs with
  | nil => cases hne rfl
  | cons p t =>
    have hp := hall p (List.mem_cons_self p t)
    simp [cachesMatch, hp]

theorem cachesMatch_cachesOpen (cs : CacheStorage) (n : String)
    (loc : Locator) : cachesMatch (cachesOpen cs n) loc = cachesMatch cs loc := by
  unfold cachesOpen
  by_cases h : (getBucket cs n).isSome
  · simp [h]
  · simp only [h, if_false, Bool.false_eq_true, cachesMatch_append]
    cases cachesMatch cs loc <;> simp [cachesMatch, bucketLookup]

theorem mem_cachesDelete (cs : CacheStorage) (n : String) (p : String × Bucket)
    (h : p ∈ cachesDelete cs n) : p ∈ cs ∧ p.1 ≠ n := by
  induction cs with
  | nil => cases h
  | cons q t ih =>
    by_cases hq : q.1 = n
    · rw [cachesDelete, if_pos hq] at h
      obtain ⟨hm, hne⟩ := ih h
      exact ⟨List.mem_cons_of_mem _ hm, hne⟩
    · rw [cachesDelete, if_neg hq] at h
      rcases List.mem_cons.mp h with rfl | ht
      · exact ⟨List.mem_cons_self _ _, hq⟩
      · obtain ⟨hm, hne⟩ := ih ht
        exact ⟨List.mem_cons_of_mem _ hm, hne⟩

theorem getBucket_cachesDelete_ne (cs : CacheStorage) (n m : String)
    (h : m ≠ n) : getBucket (cachesDelete cs n) m = getBucket cs m := by
  induction cs with
  | nil => rfl
  | cons q t ih =>
    by_cases hq : q.1 = n
    · have hm : q.1 ≠ m := fun he => h (he ▸ hq)
      rw [cachesDelete, if_pos hq]
      simp [getBucket, hm, ih]
    · rw [cachesDelete, if_neg hq]
      by_cases hm : q.1 = m <;> simp [getBucket, hm, ih]

theorem activateHandler_eq_foldl (cs : CacheStorage) :
    activateHandler cs = (cs.map Prod.fst).foldl activateStep cs := rfl

theorem foldl_activateStep_mem (ns : List String) (acc : CacheStorage)
    (p : String × Bucket) (h : p ∈ ns.foldl activateStep acc) :
    p ∈ acc ∧ (p.1 ∈ ns → p.1 = CACHE_NAME) := by
  induction ns generalizing acc with
  | nil => exact ⟨h, fun hc => absurd hc (List.not_mem_nil _)⟩
  | cons n t ih =>
    obtain ⟨hmem, ht⟩ := ih (activateStep acc n) (by simpa using h)
    by_cases hn : n = CACHE_NAME
    · rw [activateStep, if_pos hn] at hmem
      refine ⟨hmem, fun hc => ?_⟩
      rcases List.mem_cons.mp hc with rfl | hct
      · exact hn
      · exact ht hct
    · rw [activateStep, if_neg hn] at hmem
      obtain ⟨hmem2, hne⟩ := mem_cachesDelete acc n p hmem
      refine ⟨hmem2, fun hc => ?_⟩
      rcases List.mem_cons.mp hc with he | hct
      · exact absurd he hne
      · exact ht hct

theorem foldl_activateStep_getBucket (ns : List String) (acc : CacheStorage) :
    getBucket (ns.foldl activateStep acc) CACHE_NAME =
      getBucket acc CACHE_NAME := by
  induction ns generalizing acc with
  | nil => rfl
  | cons n t ih =>
    rw [List.foldl_cons, ih]
    by_cases hn : n = CACHE_NAME
    · rw [activateStep, if_pos hn]
    · rw [activateStep, if_neg hn]
      exact getBucket_cachesDelete_ne acc n CACHE_NAME (Ne.symm hn)

/-- Every bucket surviving activation is a bucket of the original storage
and is named `CACHE_NAME`. -/
theorem mem_activateHandler (cs : CacheStorage) (p : String × Bucket)
    (h : p ∈ activateHandler cs) : p ∈ cs ∧ p.1 = CACHE_NAME := by
  rw [activateHandler_eq_foldl] at h
  obtain ⟨hmem, hname⟩ := foldl_activateStep_mem _ _ _ h
  exact ⟨hmem, hname (List.mem_map_of_mem Prod.fst hmem)⟩

/-- Activation does not touch the bucket named `CACHE_NAME`. -/
theorem getBucket_activateHandler (cs : CacheStorage) :
    getBucket (activateHandler cs) CACHE_NAME = getBucket cs CACHE_NAME := by
  rw [activateHandler_eq_foldl]
  exact foldl_activateStep_getBucket _ _

/-! Lemmas about the install handler and the upgrade lifecycle. -/

theorem assets_nodup : ASSETS_TO_CACHE.Nodup := by decide

theorem installHandler_success (net : Network) (cs : CacheStorage)
    (h : (installHandler net cs).1 = true) :
    ∃ rs, fetchAll net ASSETS_TO_CACHE = some rs ∧
      (installHandler net cs).2 =
        setBucket (cachesOpen cs CACHE_NAME) CACHE_NAME
          (putAll ((getBucket (cachesOpen cs CACHE_NAME) CACHE_NAME).getD [])
            (ASSETS_TO_CACHE.zip rs)) := by
  cases hf : fetchAll net ASSETS_TO_CACHE with
  | none =>
    exfalso
    unfold installHandler at h
    rw [hf] at h
    cases h
  | some rs =>
    refine ⟨rs, rfl, ?_⟩
    unfold installHandler
    rw [hf]

/-- After a successful install, the current bucket exists and stores, for
every listed asset, exactly the response the network returned for it. -/
theorem install_success_stores (net : Network) (cs : CacheStorage)
    (h : (installHandler net cs).1 = true) :
    ∃ b, (installHandler net cs).2 =
        setBucket (cachesOpen cs CACHE_NAME) CACHE_NAME b ∧
      getBucket (installHandler net cs).2 CACHE_NAME = some b ∧
      ∀ a ∈ ASSETS_TO_CACHE, ∃ r, net a = some r ∧ bucketLookup b a = some r := by
  obtain ⟨rs, hf, hsnd⟩ := installHandler_success net cs h
  have hlen : ASSETS_TO_CACHE.length ≤ rs.length :=
    le_of_eq (fetchAll_length net ASSETS_TO_CACHE rs hf).symm
  have hkeys : keys (ASSETS_TO_CACHE.zip rs) = ASSETS_TO_CACHE :=
    List.map_fst_zip ASSETS_TO_CACHE rs hlen
  have hnodup : (keys (ASSETS_TO_CACHE.zip rs)).Nodup := by
    rw [hkeys]; exact assets_nodup
  refine ⟨putAll ((getBucket (cachesOpen cs CACHE_NAME) CACHE_NAME).getD [])
    (ASSETS_TO_CACHE.zip rs), hsnd, ?_, ?_⟩
  · rw [hsnd]
    exact getBucket_setBucket_self _ CACHE_NAME _
      (getBucket_cachesOpen_isSome cs CACHE_NAME)
  · intro a ha
    obtain ⟨r, hr, hz⟩ := fetchAll_mem net ASSETS_TO_CACHE rs a hf ha
    exact ⟨r, hr, bucketLookup_putAll _ _ a r hnodup hz⟩

theorem upgrade_eq (net : Network) (cs : CacheStorage) :
    upgrade net cs =
      if (installHandler net cs).1 = true
      then (true, activateHandler (installHandler net cs).2)
      else installHandler net cs := by
  unfold upgrade
  cases hI : installHandler net cs with
  | mk ok cs1 => cases ok <;> simp

/-- Running the install handler on a storage whose current bucket already
exists and holds `b` populates over `b` without re-opening. -/
theorem installHandler_on_setBucket (net : Network) (rs : List Resp)
    (hf : fetchAll net ASSETS_TO_CACHE = some rs) (cs0 : CacheStorage)
    (b : Bucket) (hb : getBucket cs0 CACHE_NAME = some b) :
    installHandler net cs0 =
      (true, setBucket cs0 CACHE_NAME (putAll b (ASSETS_TO_CACHE.zip rs))) := by
  have hopen : cachesOpen cs0 CACHE_NAME = cs0 := by
    unfold cachesOpen; rw [hb]; rfl
  simp only [installHandler]
  rw [hopen, hb, hf]
  rfl

/-! Lemmas about the simulated feed. -/

theorem runTicks_cons (s : ℚ × ℚ) (r : ℚ) (t : List ℚ) :
    runTicks s (r :: t) = runTicks (tickState s r) t := rfl

/-- Telescoping invariant: the portfolio value always equals its initial
value plus 100 times the total drift of the chart walk. -/
theorem runTicks_snd_eq (rs : List ℚ) (s : ℚ × ℚ) :
    (runTicks s rs).2 = s.2 + ((runTicks s rs).1 - s.1) * 100 := by
  induction rs generalizing s with
  | nil => simp [runTicks]
  | cons r t ih =>
    rw [runTicks_cons, ih]
    simp only [tickState, tickPortfolio]
    ring

theorem runTicks_fst_nonneg (rs : List ℚ) (s : ℚ × ℚ) (h : 0 ≤ s.1) :
    0 ≤ (runTicks s rs).1 := by
  induction rs generalizing s with
  | nil => simpa [runTicks] using h
  | cons r t ih =>
    rw [runTicks_cons]
    exact ih (tickState s r) (le_max_left 0 _)

/-! The claims. -/

/-- C1: a successful run of the install handler leaves a cache storage in
which the bucket named by the current version tag exists and stores an
entry (the fetched response) for every locator in `ASSETS_TO_CACHE`; if the
fetch of any single locator fails, the install fails, and the failed
install populates nothing (the storage is just the opened storage). -/
theorem install_all_or_nothing (net : Network) (cs : CacheStorage) :
    ((installHandler net cs).1 = true →
      ∃ b, getBucket (installHandler net cs).2 CACHE_NAME = some b ∧
        ∀ a ∈ ASSETS_TO_CACHE, ∃ r, net a = some r ∧ bucketLookup b a = some r)
    ∧ (∀ a ∈ ASSETS_TO_CACHE, net a = none → (installHandler net cs).1 = false)
    ∧ ((installHandler net cs).1 = false →
        (installHandler net cs).2 = cachesOpen cs CACHE_NAME) := by
  refine ⟨fun h => ?_, fun a ha hn => ?_, fun h => ?_⟩
  · obtain ⟨b, _, hgb, hstore⟩ := install_success_stores net cs h
    exact ⟨b, hgb, hstore⟩
  · have hfa : fetchAll net ASSETS_TO_CACHE = none :=
      fetchAll_none_of_mem net ASSETS_TO_CACHE a ha hn
    simp [installHandler, hfa]
  · cases hf : fetchAll net ASSETS_TO_CACHE with
    | none => simp [installHandler, hf]
    | some rs => simp [installHandler, hf] at h

theorem install_all_or_nothing_witness :
    (∃ b, getBucket (installHandler netOK []).2 CACHE_NAME = some b ∧
      ∀ a ∈ ASSETS_TO_CACHE, ∃ r, netOK a = some r ∧ bucketLookup b a = some r)
    ∧ (installHandler netFail []).1 = false :=
  ⟨(install_all_or_nothing netOK []).1 (by decide),
   (install_all_or_nothing netFail []).2.1 "/" (by decide) rfl⟩

/-- C2: after the activate handler completes, every surviving bucket is
named `CACHE_NAME` (every bucket whose name differs has been deleted), and
the bucket named `CACHE_NAME` itself survives with unchanged contents. -/
theorem activate_deletes_stale (cs : CacheStorage) :
    (∀ p ∈ activateHandler cs, p.1 = CACHE_NAME) ∧
    getBucket (activateHandler cs) CACHE_NAME = getBucket cs CACHE_NAME :=
  ⟨fun p hp => (mem_activateHandler cs p hp).2, getBucket_activateHandler cs⟩

theorem activate_deletes_stale_witness :
    activateHandler [("stale-v0", [("/x", "r0")]), (CACHE_NAME, [("/", "r1")])]
      = [(CACHE_NAME, [("/", "r1")])] ∧
    (∀ p ∈ activateHandler [("stale-v0", [("/x", "r0")]),
        (CACHE_NAME, [("/", "r1")])], p.1 = CACHE_NAME) :=
  ⟨by decide,
   (activate_deletes_stale [("stale-v0", [("/x", "r0")]),
     (CACHE_NAME, [("/", "r1")])]).1⟩

/-- C3: after a successful install followed by activation, a fetch for any
locator of `ASSETS_TO_CACHE` is answered with the response stored at
install time, and the network is not consulted (the answer is the same for
every fetch-time network, and the network-consulted flag is false). -/
theorem fetch_cache_hit_no_network (net net2 : Network) (cs : CacheStorage)
    (h : (upgrade net cs).1 = true) (a : Locator) (ha : a ∈ ASSETS_TO_CACHE) :
    ∃ r, net a = some r ∧
      fetchHandler net2 (upgrade net cs).2 a = (some r, (upgrade net cs).2, false) := by
  rw [upgrade_eq] at h ⊢
  by_cases hok : (installHandler net cs).1 = true
  · simp only [if_pos hok] at h ⊢
    obtain ⟨b, hset, hgb, hstore⟩ := install_success_stores net cs hok
    obtain ⟨r, hr, hlb⟩ := hstore a ha
    have hgb2 : getBucket (activateHandler (installHandler net cs).2) CACHE_NAME
        = some b := by rw [getBucket_activateHandler]; exact hgb
    have hall : ∀ p ∈ activateHandler (installHandler net cs).2,
        bucketLookup p.2 a = some r := by
      intro p hp
      obtain ⟨hmem, hname⟩ := mem_activateHandler _ p hp
      rw [hset] at hmem
      rcases mem_setBucket _ _ _ p hmem with ⟨_, hpb⟩ | ⟨_, hne⟩
      · rw [hpb]; exact hlb
      · exact absurd hname hne
    have hne : activateHandler (installHandler net cs).2 ≠ [] := by
      intro he
      rw [he] at hgb2
      cases hgb2
    have hmatch : cachesMatch (activateHandler (installHandler net cs).2) a
        = some r := cachesMatch_of_forall _ a r hne hall
    refine ⟨r, hr, ?_⟩
    unfold fetchHandler
    rw [hmatch]
  · simp only [if_neg hok] at h
    exact absurd h hok

theorem fetch_cache_hit_no_network_witness :
    ∃ r, netOK "/about.html" = some r ∧
      fetchHandler netFail (upgrade netOK []).2 "/about.html"
        = (some r, (upgrade netOK []).2, false) :=
  fetch_cache_hit_no_network netOK netFail [] (by decide) "/about.html" (by decide)

/-- C4, counterexample: in a storage where a stale bucket precedes the
current bucket, a locator absent from the current bucket is nevertheless
served from cache (from the stale bucket) with no network consultation, so
the fetch handler's lookup is not restricted to the current bucket. -/
theorem fetch_current_bucket_only_counterexample :
    getBucket [("stale-v0", [("/x", "r0")]), (CACHE_NAME, [])] CACHE_NAME
      = some [] ∧
    bucketLookup [] "/x" = none ∧
    fetchHandler netFail [("stale-v0", [("/x", "r0")]), (CACHE_NAME, [])] "/x"
      = (some "r0", [("stale-v0", [("/x", "r0")]), (CACHE_NAME, [])], false) := by
  decide

/-- C4, amended: the fetch handler's cache lookup (`caches.match`) searches
all cache buckets in creation order, matching by exact locator; a request
is served from cache exactly when some bucket holds its exact locator, and
a locator present verbatim in no bucket is always delegated to the
network. -/
theorem fetch_exact_match_all_buckets (net : Network) (cs : CacheStorage)
    (loc : Locator) :
    ((fetchHandler net cs loc).2.2 = false ↔
      ¬ (∀ p ∈ cs, bucketLookup p.2 loc = none))
    ∧ ((∀ p ∈ cs, bucketLookup p.2 loc = none) →
        fetchHandler net cs loc = (net loc, cs, true)) := by
  constructor
  · cases hm : cachesMatch cs loc with
    | none =>
      have hall := (cachesMatch_eq_none_iff cs loc).mp hm
      constructor
      · intro hfl
        unfold fetchHandler at hfl
        rw [hm] at hfl
        cases hfl
      · intro hn
        exact absurd hall hn
    | some r =>
      have hne : ¬ (∀ p ∈ cs, bucketLookup p.2 loc = none) := by
        intro hall
        rw [(cachesMatch_eq_none_iff cs loc).mpr hall] at hm
        cases hm
      constructor
      · intro _
        exact hne
      · intro _
        unfold fetchHandler
        rw [hm]
  · intro hall
    unfold fetchHandler
    rw [(cachesMatch_eq_none_iff cs loc).mpr hall]

theorem fetch_exact_match_all_buckets_witness :
    fetchHandler netOK [(CACHE_NAME, [("/a", "r1")])] "/b"
      = (netOK "/b", [(CACHE_NAME, [("/a", "r1")])], true) :=
  (fetch_exact_match_all_buckets netOK [(CACHE_NAME, [("/a", "r1")])] "/b").2
    (by decide)

/-- C5: the fetch handler never mutates the cache storage: whatever the
network, the storage, and the request, the storage after a fetch-handler
invocation equals the storage before it. -/
theorem fetch_never_mutates_cache (net : Network) (cs : CacheStorage)
    (loc : Locator) : (fetchHandler net cs loc).2.1 = cs := by
  unfold fetchHandler
  cases cachesMatch cs loc <;> rfl

/-- C6: if the install-time fetch of any one asset fails, the new version
does not activate (the upgrade reports failure and the activate handler
never runs), every pre-existing bucket keeps its exact contents, and every
fetch is answered exactly as before the failed install (same response, same
network-consulted flag). -/
theorem install_failure_keeps_previous (net : Network) (cs : CacheStorage)
    (a : Locator) (ha : a ∈ ASSETS_TO_CACHE) (hfail : net a = none) :
    (upgrade net cs).1 = false ∧
    (∀ name, (getBucket cs name).isSome →
      getBucket (upgrade net cs).2 name = getBucket cs name) ∧
    (∀ net2 loc,
      (fetchHandler net2 (upgrade net cs).2 loc).1 = (fetchHandler net2 cs loc).1 ∧
      (fetchHandler net2 (upgrade net cs).2 loc).2.2 = (fetchHandler net2 cs loc).2.2) := by
  have hfa : fetchAll net ASSETS_TO_CACHE = none :=
    fetchAll_none_of_mem net ASSETS_TO_CACHE a ha hfail
  have hinst : installHandler net cs = (false, cachesOpen cs CACHE_NAME) := by
    unfold installHandler
    rw [hfa]
  have hup : upgrade net cs = (false, cachesOpen cs CACHE_NAME) := by
    rw [upgrade_eq, hinst]
    simp
  refine ⟨by rw [hup], fun name hs => ?_, fun net2 loc => ?_⟩
  · rw [hup]
    exact getBucket_cachesOpen_of_isSome cs CACHE_NAME name hs
  · rw [hup]
    have hm := cachesMatch_cachesOpen cs CACHE_NAME loc
    unfold fetchHandler
    rw [hm]
    cases cachesMatch cs loc <;> exact ⟨rfl, rfl⟩

theorem install_failure_keeps_previous_witness :
    (upgrade netFail [("v0", [("/", "r0")])]).1 = false ∧
    getBucket (upgrade netFail [("v0", [("/", "r0")])]).2 "v0" = some [("/", "r0")] := by
  obtain ⟨h1, h2, _⟩ :=
    install_failure_keeps_previous netFail [("v0", [("/", "r0")])] "/" (by decide) rfl
  refine ⟨h1, ?_⟩
  rw [h2 "v0" (by decide)]
  decide

/-- C7: re-running the install handler, with the same version tag and asset
list, on the storage left by a successful install succeeds and leaves the
storage exactly unchanged: every locator's entry is overwritten with the
same response and nothing is duplicated. -/
theorem install_idempotent (net : Network) (cs : CacheStorage)
    (h : (installHandler net cs).1 = true) :
    installHandler net (installHandler net cs).2 = (true, (installHandler net cs).2) := by
  obtain ⟨rs, hf, hsnd⟩ := installHandler_success net cs h
  have hlen : ASSETS_TO_CACHE.length ≤ rs.length :=
    le_of_eq (fetchAll_length net ASSETS_TO_CACHE rs hf).symm
  have hkeys : keys (ASSETS_TO_CACHE.zip rs) = ASSETS_TO_CACHE :=
    List.map_fst_zip ASSETS_TO_CACHE rs hlen
  have hnodup : (keys (ASSETS_TO_CACHE.zip rs)).Nodup := by
    rw [hkeys]; exact assets_nodup
  have hA : getBucket (installHandler net cs).2 CACHE_NAME =
      some (putAll ((getBucket (cachesOpen cs CACHE_NAME) CACHE_NAME).getD [])
        (ASSETS_TO_CACHE.zip rs)) := by
    rw [hsnd]
    exact getBucket_setBucket_self _ CACHE_NAME _
      (getBucket_cachesOpen_isSome cs CACHE_NAME)
  rw [installHandler_on_setBucket net rs hf _ _ hA, putAll_idem _ _ hnodup,
    hsnd, setBucket_setBucket]

theorem install_idempotent_witness :
    installHandler netOK (installHandler netOK []).2
      = (true, (installHandler netOK []).2) :=
  install_idempotent netOK [] (by decide)

/-- C8: for every nonnegative previous chart value and every random draw in
`[0, 1)`, the next point of the random walk is nonnegative (clamped at
zero), the unclamped change has magnitude at most 2.5, and the result never
exceeds the previous value plus 2.5. -/
theorem generateNextPoint_bounds (prevPrice r : ℚ) (hp : 0 ≤ prevPrice)
    (h0 : 0 ≤ r) (h1 : r < 1) :
    0 ≤ generateNextPoint prevPrice r ∧
    generateNextPoint prevPrice r ≤ prevPrice + 5/2 ∧
    |(r - 1/2) * 5| ≤ 5/2 := by
  refine ⟨le_max_left 0 _, ?_, ?_⟩
  · unfold generateNextPoint
    exact max_le (by linarith) (by linarith)
  · rw [abs_le]
    constructor <;> linarith

theorem generateNextPoint_bounds_witness :
    0 ≤ generateNextPoint 100 (1/2) ∧
    generateNextPoint 100 (1/2) ≤ 100 + 5/2 ∧
    |((1:ℚ)/2 - 1/2) * 5| ≤ 5/2 :=
  generateNextPoint_bounds 100 (1/2) (by norm_num) (by norm_num) (by norm_num)

/-- C9: the init effect creates exactly 50 chart points; a tick on an empty
series is undefined (it reads the last element), and a tick on a non-empty
series removes exactly the oldest point and appends exactly one new point,
so the series length is invariant. -/
theorem chart_tick_length_invariant (now : Int) (rand : Nat → ℚ) (r : ℚ)
    (t : Int) (prev : List ChartPoint) :
    (initChartData now rand).length = 50 ∧
    tickChart [] r t = none ∧
    (prev ≠ [] → ∃ last l', prev.getLast? = some last ∧
      tickChart prev r t = some l' ∧
      l' = prev.tail ++ [⟨t, generateNextPoint last.value r⟩] ∧
      l'.length = prev.length) := by
  refine ⟨by simp [initChartData], rfl, fun hne => ?_⟩
  obtain ⟨last, hlast⟩ : ∃ last, prev.getLast? = some last := by
    cases hl : prev.getLast? with
    | none => exact absurd (List.getLast?_eq_none_iff.mp hl) hne
    | some x => exact ⟨x, rfl⟩
  refine ⟨last, prev.tail ++ [⟨t, generateNextPoint last.value r⟩], hlast, ?_, rfl, ?_⟩
  · unfold tickChart
    rw [hlast]
  · cases prev with
    | nil => exact absurd rfl hne
    | cons p tl => simp

theorem chart_tick_length_invariant_witness :
    ∃ last l', ([⟨0, 100⟩] : List ChartPoint).getLast? = some last ∧
      tickChart [⟨0, 100⟩] (1/2) 7 = some l' ∧
      l' = ([⟨0, 100⟩] : List ChartPoint).tail
        ++ [⟨7, generateNextPoint last.value (1/2)⟩] ∧
      l'.length = ([⟨0, 100⟩] : List ChartPoint).length :=
  (chart_tick_length_invariant 0 (fun _ => 0) (1/2) 7 [⟨0, 100⟩]).2.2
    (by simp)

/-- C10, counterexample: starting from the program's initial state (a
portfolio value of 124500 and any initial chart value in `[100, 120)`, as
produced by the init effect), no sequence of ticks, whatever the random
draws, ever drives the portfolio value negative — so the claim that it can
become negative is false on the code. -/
theorem portfolio_negative_counterexample :
    ¬ ∃ (c0 : ℚ) (rs : List ℚ), 100 ≤ c0 ∧ c0 < 120 ∧
      (runTicks (c0, INITIAL_PORTFOLIO_VALUE) rs).2 < 0 := by
  rintro ⟨c0, rs, h1, h2, h3⟩
  have hs := runTicks_snd_eq rs (c0, INITIAL_PORTFOLIO_VALUE)
  have hf : 0 ≤ (runTicks (c0, INITIAL_PORTFOLIO_VALUE) rs).1 :=
    runTicks_fst_nonneg rs (c0, INITIAL_PORTFOLIO_VALUE) (by simpa using by linarith)
  have hv : INITIAL_PORTFOLIO_VALUE = (124500 : ℚ) := rfl
  rw [hv] at hs h3 hf
  simp only at hs
  linarith

/-- C10, amended: on each tick the portfolio value changes by exactly 100
times the chart walk's delta, with no zero-clamp applied to it; however,
starting from the program's initial state (portfolio value 124500 and an
initial chart value below 120), the portfolio value remains positive after
every sequence of ticks, so it never becomes negative. -/
theorem portfolio_delta_and_positivity (s : ℚ × ℚ) (r c0 : ℚ) (rs : List ℚ)
    (h0 : 0 ≤ c0) (h1 : c0 < 120) :
    (tickState s r).2 - s.2 = ((tickState s r).1 - s.1) * 100 ∧
    0 < (runTicks (c0, INITIAL_PORTFOLIO_VALUE) rs).2 := by
  constructor
  · simp only [tickState, tickPortfolio]
    ring
  · have hs := runTicks_snd_eq rs (c0, INITIAL_PORTFOLIO_VALUE)
    have hf : 0 ≤ (runTicks (c0, INITIAL_PORTFOLIO_VALUE) rs).1 :=
      runTicks_fst_nonneg rs (c0, INITIAL_PORTFOLIO_VALUE) (by simpa using h0)
    have hv : INITIAL_PORTFOLIO_VALUE = (124500 : ℚ) := rfl
    rw [hv] at hs hf ⊢
    simp only at hs
    linarith

theorem portfolio_delta_and_positivity_witness :
    (tickState ((3 : ℚ), (5 : ℚ)) 0).2 - 5
      = ((tickState ((3 : ℚ), (5 : ℚ)) 0).1 - 3) * 100 ∧
    0 < (runTicks ((110 : ℚ), INITIAL_PORTFOLIO_VALUE) [1/2]).2 :=
  portfolio_delta_and_positivity (3, 5) 0 110 [1/2] (by norm_num) (by norm_num)

end PortfolioSite
